import Mathlib

/-!
Verification of the in-memory disassembler (`disasm.cpp`): the debug-line
annotator `DILineInfoPrinter`, the `SymbolTable` that resolves branch/call
target names, and the two-pass disassembly loop of `jl_dump_asm_internal`.

The C++ code is shallowly embedded: `std::vector<DILineInfo>` becomes
`List DILineInfo`, `std::map<uint64_t, std::string>` becomes an association
list `List (Nat × String)`, `uint64_t`/`uintptr_t` arithmetic is `Nat` with
explicit wrap-around `% 2^64` where the source can overflow, and the external
collaborators (runtime symbolicator `jl_getFunctionInfo`, object-file symbol
lookup, the `MCDisassembler`) are function parameters.
-/

set_option maxHeartbeats 1000000

/-- One frame of debug info, as used by `DILineInfoPrinter`.  The C++
`llvm::DILineInfo` has further fields, but the code in this file only ever
constructs and inspects `FunctionName`, `FileName` and `Line`; its `!=`
compares all populated fields. `Line` is a `uint32_t`, kept as `Nat`. -/
structure DILineInfo where
  FunctionName : String
  FileName : String
  Line : Nat
deriving DecidableEq

/-- Default-constructed `DILineInfo` (only used as the `getD` fallback for
in-bounds accesses, so its value is never observable). -/
def dfltDI : DILineInfo := ⟨"", "", 0⟩

/-- `StringRef(s).rtrim(';')`: drop every trailing semicolon. -/
def rtrimSemi (s : String) : String :=
  ⟨(s.data.reverse.dropWhile (fun c => c = ';')).reverse⟩

/-- `StringRef(frame.FunctionName).rtrim(';')` — the method name used by all
function-name comparisons in `DILineInfoPrinter`. -/
def diName (f : DILineInfo) : String := rtrimSemi f.FunctionName

/-- `UINT_MAX` for the `uint32_t` line numbers. -/
def UINT32_MAX : Nat := 4294967295

/-- The `verbosity` enumeration of `DILineInfoPrinter`. -/
inductive Verbosity where
  | output_none
  | output_source
deriving DecidableEq

/-- `DILineInfoPrinter::SetVerbosity`: recognizes `"default"`, `"source"`
(both → `output_source`) and `"none"` (→ `output_none`); any other string
leaves the current verbosity unchanged. -/
def SetVerbosity (v : Verbosity) (c : String) : Verbosity :=
  if c = "default" then Verbosity.output_source
  else if c = "source" then Verbosity.output_source
  else if c = "none" then Verbosity.output_none
  else v

/-- The member initializer of the `verbosity` field (`= output_source`). -/
def initVerbosity : Verbosity := Verbosity.output_source

/-- Configuration of a `DILineInfoPrinter`: the constructor arguments
`LineStart` and `bracket_outer`, the member `collapse_recursive`
(initialized `true`, never reassigned), and the current `verbosity`. -/
structure PrinterConfig where
  LineStart : String
  bracket_outer : Bool
  collapse_recursive : Bool
  verbosity : Verbosity

/-- Mutable state of a `DILineInfoPrinter`: the `context` vector and the
`inline_depth` counter. -/
structure PrinterState where
  context : List DILineInfo
  inline_depth : Nat
deriving DecidableEq

/-- The initial printer state (`context` empty, `inline_depth = 0`). -/
def initPrinterState : PrinterState := ⟨[], 0⟩

/-- `operator<<(Out, repeat{n, c})`: print `c` exactly `n` times. -/
def srep (c : String) (n : Nat) : String :=
  String.join (List.replicate n c)

/-- The repeat count of `DILineInfoPrinter::inlining_indent`:
`max(inline_depth + bracket_outer, 1) - 1`. -/
def inliningIndentCount (cfg : PrinterConfig) (depth : Nat) : Nat :=
  max (depth + (if cfg.bracket_outer then 1 else 0)) 1 - 1

/-- `inlining_indent(c)` rendered as a string. -/
def inliningIndent (cfg : PrinterConfig) (depth : Nat) (c : String) : String :=
  srep c (inliningIndentCount cfg depth)

/-- The running count in the `npops`/`depth2` loops: starting from run
representative `prev`, add 1 at each position whose name differs from its
predecessor. -/
def runsFrom (prev : String) : List String → Nat
  | [] => 0
  | x :: xs => (if prev = x then 0 else 1) + runsFrom x xs

/-- Number of maximal runs of equal adjacent strings: the value computed by
the `npops` loop (lines `npops = 1; if (Prev != Next) npops += 1`) on a
nonempty list, and `0` on the empty list. -/
def countRuns : List String → Nat
  | [] => 0
  | x :: xs => 1 + runsFrom x xs

/-- The method names of a frame list (each `FunctionName` with trailing
semicolons removed). -/
def nameList (l : List DILineInfo) : List String := l.map diName

/-- The matching-prefix loop of `emit_lineinfo`: largest `nctx` such that the
first `nctx` entries of `context` and of the (outer-to-inner) new frame list
agree pairwise under `DILineInfo` equality. -/
def prefixLen : List DILineInfo → List DILineInfo → Nat
  | c :: cs, f :: fs => if c = f then prefixLen cs fs + 1 else 0
  | _, _ => 0

/-- The shrink loop of the recursion-collapse check:
`while (nctx > 0 && rtrim(context[nctx-1].FunctionName) == method) nctx -= 1`. -/
def shrinkRec (context : List DILineInfo) (method : String) : Nat → Nat
  | 0 => 0
  | n + 1 =>
    if diName (context.getD n dfltDI) = method then shrinkRec context method n
    else n + 1

/-- Lines 216-257 of `emit_lineinfo`: compute the matching prefix size `nctx`
and the `update_line_only` flag.  `frames` is the new frame stack in
outer-to-inner order, so `frames.getD i` is the C++ `DI.at(nframes - 1 - i)`
(and `frames.length` is `nframes`). -/
def computeNctxUlo (cfg : PrinterConfig) (context frames : List DILineInfo) : Nat × Bool :=
  let nframes := frames.length
  let nctx0 := prefixLen context frames
  if cfg.collapse_recursive then
    let s1 : Nat × Bool :=
      if 0 < nctx0 then
        let method := diName (context.getD (nctx0 - 1) dfltDI)
        if (nctx0 < nframes ∧ diName (frames.getD nctx0 dfltDI) = method)
            ∨ (nctx0 < context.length ∧ diName (context.getD nctx0 dfltDI) = method) then
          (shrinkRec context method nctx0, true)
        else (nctx0, false)
      else (nctx0, false)
    if s1.2 = false ∧ s1.1 < context.length ∧ s1.1 < nframes then
      if diName (context.getD s1.1 dfltDI) = diName (frames.getD s1.1 dfltDI) then
        (s1.1, true)
      else s1
    else s1
  else
    if nctx0 < context.length ∧ nctx0 < nframes then
      if (context.getD nctx0 dfltDI).FileName = (frames.getD nctx0 dfltDI).FileName ∧
          diName (context.getD nctx0 dfltDI) = diName (frames.getD nctx0 dfltDI) then
        (nctx0, true)
      else (nctx0, false)
    else (nctx0, false)

/-- The `npops` count of the closing step: with `collapse_recursive`, the
number of distinct-method-name runs in `context[nctx:]` (the
`npops = 1; if (Prev != Next) npops += 1` loop), otherwise the raw number of
closed frames; decremented once under `update_line_only`. -/
def closePops (cfg : PrinterConfig) (context : List DILineInfo) (nctx : Nat) (ulo : Bool) : Nat :=
  let npops0 :=
    if cfg.collapse_recursive then countRuns (nameList (context.drop nctx))
    else context.length - nctx
  if ulo then npops0 - 1 else npops0

/-- Lines 258-281 of `emit_lineinfo`: close the frames past index `nctx`.
Truncates `context`, and when `npops > 0` decrements `inline_depth` and emits
one closing line (the indent uses the already-decremented depth). -/
def closeFrames (cfg : PrinterConfig) (st : PrinterState) (nctx : Nat) (ulo : Bool) :
    PrinterState × String :=
  if nctx < st.context.length then
    let npops := closePops cfg st.context nctx ulo
    if 0 < npops then
      let depth2 := st.inline_depth - npops
      (⟨st.context.take nctx, depth2⟩,
        cfg.LineStart ++ inliningIndent cfg depth2 "│" ++ srep "└" npops ++ "\n")
    else (⟨st.context.take nctx, st.inline_depth⟩, "")
  else (st, "")

/-- The `" @ file:line"` text of the inner recursion-collapse loop (printed
with an unconditional `:line`). -/
def frameEntryText (f : DILineInfo) : String :=
  " @ " ++ f.FileName ++ ":" ++ toString f.Line

/-- Concatenated continuation text for the frames absorbed by the inner
recursion-collapse loop. -/
def collapseText (l : List DILineInfo) : String :=
  String.join (l.map frameEntryText)

/-- The `":" << frame.Line` of an opened frame, guarded by
`Line != UINT_MAX && Line != 0`. -/
def lineSuffix (line : Nat) : String :=
  if line ≠ UINT32_MAX ∧ line ≠ 0 then ":" ++ toString line else ""

/-- Lines 283-313 of `emit_lineinfo`: the `while (nctx < nframes)` loop that
opens the remaining frames.  `rest` is `frames.drop nctx` (outer-to-inner);
`nctx` is the C++ counter (used for the `nctx != 1` bracket test), `context`
and `depth` the current state, `ulo` the `update_line_only` flag.  The inner
`collapse_recursive` loop absorbs the following frames with the same method
name into the same printed line. -/
def openFrames (cfg : PrinterConfig) :
    List DILineInfo → Nat → List DILineInfo → Nat → Bool →
    List DILineInfo × Nat × String
  | [], _, context, depth, _ => (context, depth, "")
  | frame :: rest, nctx, context, depth, ulo =>
    let method := diName frame
    let taken := if cfg.collapse_recursive then rest.takeWhile (fun g => diName g = method) else []
    let rem := if cfg.collapse_recursive then rest.dropWhile (fun g => diName g = method) else rest
    let depth1 := if ulo then depth else depth + 1
    let opener : String :=
      if ulo then "" else if cfg.bracket_outer ∨ nctx + 1 ≠ 1 then "┌" else ""
    let line := cfg.LineStart ++ inliningIndent cfg depth "│" ++ opener ++ " @ " ++
      frame.FileName ++ lineSuffix frame.Line ++ " within `" ++ method ++ "`" ++
      collapseText taken ++ "\n"
    let next := openFrames cfg rem (nctx + 1 + taken.length) ((context ++ [frame]) ++ taken)
      depth1 false
    (next.1, next.2.1, line ++ next.2.2)
termination_by rest _ _ _ _ => rest.length
decreasing_by
  simp only [List.length_cons]
  split
  · exact Nat.lt_succ_of_le (List.dropWhile_sublist _).length_le
  · exact Nat.lt_succ_self _

/-- `DILineInfoPrinter::emit_lineinfo(Out, DI)`.  `DI` is in the C++ order
(innermost frame first, as produced by `DIInliningInfo`); the body indexes it
exclusively as `DI.at(nframes - 1 - nctx)`, i.e. walks `DI.reverse` from the
front, which is how the embedding reads it.  Returns the new state and the
emitted text. -/
def emit_lineinfo (cfg : PrinterConfig) (st : PrinterState) (DI : List DILineInfo) :
    PrinterState × String :=
  if cfg.verbosity = Verbosity.output_none then (st, "")
  else if DI.length = 0 then (st, "")
  else
    let frames := DI.reverse
    let r1 := computeNctxUlo cfg st.context frames
    let r2 := closeFrames cfg st r1.1 r1.2
    let r3 := openFrames cfg (frames.drop r1.1) r1.1 r2.1.context r2.1.inline_depth r1.2
    (⟨r3.1, r3.2.1⟩, r2.2 ++ r3.2.2)

/-- The `depth2` computed by the assertion at the end of `emit_lineinfo`:
with `collapse_recursive`, the number of distinct-method-name runs in the
final context; without it, the context length (`0` on an empty context, where
the C++ assertion is never reached). -/
def assertDepth (cfg : PrinterConfig) (l : List DILineInfo) : Nat :=
  if cfg.collapse_recursive then countRuns (nameList l) else l.length

/-- `DILineInfoPrinter::emit_finish`: emit the remaining closing glyphs and
reset the state. -/
def emit_finish (cfg : PrinterConfig) (st : PrinterState) : PrinterState × String :=
  let pops := inliningIndentCount cfg st.inline_depth
  (initPrinterState,
    if 0 < pops then cfg.LineStart ++ srep "└" pops ++ "\n" else "")

/-- The annotator configuration constructed by `jl_dump_asm_internal`:
`DILineInfoPrinter dbgctx{"; ", true}` (so `bracket_outer` is set), the
always-true `collapse_recursive` member, and full source verbosity (the
value both after construction and after `SetVerbosity("source")`). -/
def asmPrinterConfig : PrinterConfig :=
  ⟨"; ", true, true, Verbosity.output_source⟩

/-! ## SymbolTable -/

/-- Lookup in the `std::map<uint64_t, std::string>` table, embedded as an
association list (`Table.find(addr)`). -/
def lookupEntry : List (Nat × String) → Nat → Option String
  | [], _ => none
  | (a, s) :: t, addr => if a = addr then some s else lookupEntry t addr

/-- `Table[addr] = v` on the association list: replace the entry if the key
is present, otherwise add it. -/
def setEntry : List (Nat × String) → Nat → String → List (Nat × String)
  | [], addr, v => [(addr, v)]
  | (a, s) :: t, addr, v =>
    if a = addr then (a, v) :: t else (a, s) :: setEntry t addr v

/-- `SymbolTable::insertAddress(addr)`: `Table[addr] = ""`. -/
def insertAddress (t : List (Nat × String)) (addr : Nat) : List (Nat × String) :=
  setEntry t addr ""

/-- Reduction of a `Nat` to the `uint64_t`/`uintptr_t` value range. -/
def wrap64 (n : Nat) : Nat := n % 2 ^ 64

/-- `uint64_t`/`uintptr_t` subtraction `a - b` with two's-complement wrap
(both operands below `2^64`). -/
def sub64 (a b : Nat) : Nat := wrap64 (a + (2 ^ 64 - b % 2 ^ 64))

/-- The body of the `SymbolTable::createSymbols` loop for one table entry:
in-range addresses get the offset label `"L" << (addr - ip)`; out-of-range
addresses get the runtime symbolicator's (`lookupLocalPC`) answer when it is
a non-null, non-empty string, and otherwise keep their current value.  The
in-range test `Fptr <= addr && addr < Fptr + Fsize` is `uintptr_t`
arithmetic, hence the wrap on the upper bound. -/
def createSymbolsEntry (Fptr Fsize ip : Nat) (lookupLocalPC : Nat → Option String) :
    Nat × String → Nat × String
  | (addr, s) =>
    let rel := sub64 addr ip
    if Fptr ≤ addr ∧ addr < wrap64 (Fptr + Fsize) then
      (addr, "L" ++ toString rel)
    else
      match lookupLocalPC addr with
      | some g => if g ≠ "" then (addr, g) else (addr, s)
      | none => (addr, s)

/-- `SymbolTable::createSymbols()`: apply the loop body to every recorded
entry. -/
def createSymbols (Fptr Fsize ip : Nat) (lookupLocalPC : Nat → Option String)
    (t : List (Nat × String)) : List (Nat × String) :=
  t.map (createSymbolsEntry Fptr Fsize ip lookupLocalPC)

/-- An `int64_t` value reinterpreted as `uint64_t` (two's complement). -/
def toU64 (x : Int) : Nat := (x % (2 ^ 64 : Int)).toNat

/-- `SymbolTable::lookupSymbolName(addr)`: if `addr` is already in the table,
return its cached name (`NULL`, i.e. `none`, when empty).  Otherwise resolve
it — first the object-file symbol at `addr + slide`
(`getSymbolNameAt`), then, if that is empty, the runtime symbolicator
(`lookupLocalPC`, whose `NULL` is `none`) — cache the result and return it.
No offset label is ever produced here. -/
def lookupSymbolName (getSymbolNameAt : Nat → String) (lookupLocalPC : Nat → Option String)
    (slide : Int) (t : List (Nat × String)) (addr : Nat) :
    List (Nat × String) × Option String :=
  match lookupEntry t addr with
  | some s => (t, if s = "" then none else some s)
  | none =>
    let local_name := getSymbolNameAt (toU64 ((addr : Int) + slide))
    let v : String :=
      if local_name = "" then
        match lookupLocalPC addr with
        | some g => g
        | none => ""
      else local_name
    (t ++ [(addr, v)], if v = "" then none else some v)

/-- The name `SymbolTable::lookupSymbolName` computes for an address seen
for the first time: the object-file symbol at `addr + slide` when that is
non-empty, else the runtime symbolicator's answer (`""` for `NULL`). -/
def onDemandName (gs : Nat → String) (lk : Nat → Option String) (slide : Int)
    (addr : Nat) : String :=
  if gs (toU64 ((addr : Int) + slide)) = "" then (lk addr).getD ""
  else gs (toU64 ((addr : Int) + slide))

/-! ## Two-pass disassembly loop -/

/-- `llvm::MCDisassembler::DecodeStatus`. -/
inductive DecodeStatus where
  | Fail
  | SoftFail
  | Success
deriving DecidableEq

/-- The `insSize` actually used to advance `Index`: the `Fail` branch patches
a zero size to the architecture minimum step (4 on PPC/ARM/AArch64, 1
otherwise); other statuses keep the decoder's size. -/
def advanceSize (minStep : Nat) (S : DecodeStatus) (sz : Nat) : Nat :=
  match S with
  | DecodeStatus.Fail => if sz = 0 then minStep else sz
  | DecodeStatus.SoftFail => sz
  | DecodeStatus.Success => sz

/-- The offset of the disassembly loop
`for (Index = 0; Index < Fsize; Index += insSize)` after `fuel` iterations,
starting at offset `i`, where `decode off = (status, reported size)` is the
decoder collaborator's behaviour at offset `off`.  Once the loop condition
fails the offset no longer changes. -/
def disasmOffsets (decode : Nat → DecodeStatus × Nat) (minStep Fsize : Nat) :
    Nat → Nat → Nat
  | 0, i => i
  | fuel + 1, i =>
    if i < Fsize then
      disasmOffsets decode minStep Fsize fuel
        (i + advanceSize minStep (decode i).1 (decode i).2)
    else i

/-- One immediate operand of a decoded `MCInst`, with the fields the emission
pass reads: `isImm()`, `getImm()` (an `int64_t`) and whether its operand
type is `MCOI::OPERAND_PCREL`. -/
structure MCOperandImm where
  isImm : Bool
  imm : Int
  isPCRel : Bool

/-- The decoded-instruction data consumed by the switch: whether the opcode
`isBranch() || isCall()`, the result of `MCIA->evaluateBranch` (`none` when
it fails), and the operand list. -/
structure InstDesc where
  isBranchOrCall : Bool
  evalBranch : Option Nat
  operands : List MCOperandImm

/-- Items emitted through the `MCStreamer` by one loop iteration. -/
inductive EmitItem where
  | rawText (s : String)
  | comment (s : String)
  | instruction
deriving DecidableEq

/-- Hex formatting of `llvm::write_hex(_, v, HexPrintStyle::PrefixLower, w)`:
`0x` followed by at least `w` lowercase hex digits, zero-padded. -/
def writeHexPrefixLower (v width : Nat) : String :=
  let ds := Nat.toDigits 16 v
  "0x" ++ String.mk (List.replicate (width - ds.length) '0') ++ String.mk ds

/-- The `*(uint32_t*)` load of the `.long` directive, from byte memory `mem`
(little-endian, as on every architecture this build targets with a 4-byte
minimum step). -/
def load32le (mem : Nat → Nat) (a : Nat) : Nat :=
  mem a % 256 + 256 * (mem (a + 1) % 256) + 65536 * (mem (a + 2) % 256) +
    16777216 * (mem (a + 3) % 256)

/-- The raw-byte directive text emitted by the `Fail` branch (after the size
patch): one `.long` for a 4-byte step, else one `.byte` per skipped byte. -/
def failRawText (mem : Nat → Nat) (Fptr Index insSize : Nat) : String :=
  if insSize = 4 then
    "\t.long\t" ++ writeHexPrefixLower (load32le mem (Fptr + Index)) 8
  else
    String.join ((List.range insSize).map fun i =>
      "\t.byte\t" ++ writeHexPrefixLower (mem (Fptr + Index + i) % 256) 2)

/-- The operand-symbolication loop of the emission pass (lines 1082-1093):
for every immediate operand, add `Fptr + Index` when it is PC-relative,
reinterpret the `int64_t` as a `uint64_t` address, call
`SymbolTable::lookupSymbolName` (threading the table cache) and attach the
name as a comment when resolved. -/
def symbolicateOperands (gs : Nat → String) (lk : Nat → Option String) (slide : Int)
    (Fptr Index : Nat) :
    List MCOperandImm → List (Nat × String) → List (Nat × String) × List EmitItem
  | [], t => (t, [])
  | op :: ops, t =>
    if op.isImm then
      let imm : Int := op.imm + (if op.isPCRel then ((Fptr + Index : Nat) : Int) else 0)
      let r := lookupSymbolName gs lk slide t (toU64 imm)
      let rest := symbolicateOperands gs lk slide Fptr Index ops r.1
      match r.2 with
      | some name => (rest.1, EmitItem.comment name :: rest.2)
      | none => rest
    else symbolicateOperands gs lk slide Fptr Index ops t

/-- The common tail of the `SoftFail` and `Success` cases in the emission
pass (`pass != 0`): symbolicate the immediate operands, optionally emit the
raw-bytes comment (`binary` mode), then emit the instruction. -/
def emitInstrBody (gs : Nat → String) (lk : Nat → Option String) (slide : Int)
    (binary : Bool) (rawcmt : String) (Fptr Index : Nat) (inst : InstDesc)
    (t : List (Nat × String)) : List (Nat × String) × List EmitItem :=
  let r := symbolicateOperands gs lk slide Fptr Index inst.operands t
  (r.1, r.2 ++ (if binary then [EmitItem.rawText rawcmt] else []) ++ [EmitItem.instruction])

/-- The `switch (S)` of the emission pass (`pass != 0`), lines 1035-1100:
`Fail` patches the size and emits the raw-byte directive; `SoftFail` emits
the warning line and falls through to the `Success` handling. -/
def pass2SwitchStep (gs : Nat → String) (lk : Nat → Option String) (slide : Int)
    (minStep : Nat) (mem : Nat → Nat) (binary : Bool) (rawcmt : String)
    (Fptr Index : Nat) (t : List (Nat × String)) (S : DecodeStatus) (sz : Nat)
    (inst : InstDesc) : List (Nat × String) × List EmitItem :=
  match S with
  | DecodeStatus.Fail =>
    let insSize := if sz = 0 then minStep else sz
    (t, [EmitItem.rawText (failRawText mem Fptr Index insSize)])
  | DecodeStatus.SoftFail =>
    let r := emitInstrBody gs lk slide binary rawcmt Fptr Index inst t
    (r.1, EmitItem.rawText "potentially undefined instruction encoding:" :: r.2)
  | DecodeStatus.Success =>
    emitInstrBody gs lk slide binary rawcmt Fptr Index inst t

/-- The `switch (S)` of the discovery pass (`pass == 0`): `SoftFail` falls
through to `Success`, which records an evaluable branch/call target via
`insertAddress`; nothing is emitted. -/
def pass0SwitchStep (hasMCIA : Bool) (t : List (Nat × String)) (S : DecodeStatus)
    (inst : InstDesc) : List (Nat × String) :=
  match S with
  | DecodeStatus.Fail => t
  | DecodeStatus.SoftFail =>
    if hasMCIA ∧ inst.isBranchOrCall then
      match inst.evalBranch with
      | some addr => insertAddress t addr
      | none => t
    else t
  | DecodeStatus.Success =>
    if hasMCIA ∧ inst.isBranchOrCall then
      match inst.evalBranch with
      | some addr => insertAddress t addr
      | none => t
    else t

/-! ## Helper lemmas for the symbol table and the loop bound -/

theorem lookupEntry_append_self (t : List (Nat × String)) (addr : Nat) (v : String)
    (h : lookupEntry t addr = none) :
    lookupEntry (t ++ [(addr, v)]) addr = some v := by
  induction t with
  | nil => simp [lookupEntry]
  | cons e t2 ih =>
    obtain ⟨a, s⟩ := e
    rw [List.cons_append]
    by_cases ha : a = addr
    · exfalso
      simp only [lookupEntry] at h
      rw [if_pos ha] at h
      exact Option.noConfusion h
    · simp only [lookupEntry] at h ⊢
      rw [if_neg ha] at h ⊢
      exact ih h

theorem createSymbolsEntry_idem (Fptr Fsize ip : Nat) (lk : Nat → Option String)
    (e : Nat × String) :
    createSymbolsEntry Fptr Fsize ip lk (createSymbolsEntry Fptr Fsize ip lk e) =
      createSymbolsEntry Fptr Fsize ip lk e := by
  obtain ⟨a, v⟩ := e
  by_cases h : Fptr ≤ a ∧ a < wrap64 (Fptr + Fsize)
  · have hinner : createSymbolsEntry Fptr Fsize ip lk (a, v) =
        (a, "L" ++ toString (sub64 a ip)) := by
      simp [createSymbolsEntry, h]
    rw [hinner]
    simp [createSymbolsEntry, h]
  · cases hg : lk a with
    | none =>
      have hinner : createSymbolsEntry Fptr Fsize ip lk (a, v) = (a, v) := by
        simp [createSymbolsEntry, h, hg]
      rw [hinner]
      exact hinner
    | some g =>
      by_cases hge : g = ""
      · have hinner : createSymbolsEntry Fptr Fsize ip lk (a, v) = (a, v) := by
          simp [createSymbolsEntry, h, hg, hge]
        rw [hinner]
        exact hinner
      · have hinner : createSymbolsEntry Fptr Fsize ip lk (a, v) = (a, g) := by
          simp [createSymbolsEntry, h, hg, hge]
        rw [hinner]
        simp [createSymbolsEntry, h, hg, hge]

theorem disasmOffsets_lower_bound (decode : Nat → DecodeStatus × Nat) (minStep Fsize : Nat)
    (hadv : ∀ i, 1 ≤ advanceSize minStep (decode i).1 (decode i).2) :
    ∀ fuel i, min Fsize (i + fuel) ≤ disasmOffsets decode minStep Fsize fuel i := by
  intro fuel
  induction fuel with
  | zero =>
    intro i
    unfold disasmOffsets
    omega
  | succ n ih =>
    intro i
    unfold disasmOffsets
    split
    · have h1 := ih (i + advanceSize minStep (decode i).1 (decode i).2)
      have h2 := hadv i
      omega
    · omega

/-! ## Claim theorems -/

/-- Claim C1: after pass 1 recorded an address (table value `""`),
`SymbolTable::createSymbols` run with the instruction pointer set to the
region base `Fptr` gives that entry the name `"L" + (addr - ip)` when the
address lies in `[Fptr, Fptr + Fsize)`, otherwise the runtime symbolicator's
answer when that answer is a non-null non-empty string, and otherwise leaves
the entry unresolved (empty). -/
theorem createSymbols_finalize_names (Fptr Fsize : Nat) (lk : Nat → Option String)
    (t : List (Nat × String)) (addr : Nat)
    (hmem : (addr, "") ∈ t) (haddr : addr < 2 ^ 64) (hfit : Fptr + Fsize < 2 ^ 64) :
    (addr,
      if Fptr ≤ addr ∧ addr < Fptr + Fsize then "L" ++ toString (addr - Fptr)
      else
        match lk addr with
        | some g => if g = "" then "" else g
        | none => "") ∈ createSymbols Fptr Fsize Fptr lk t := by
  have hmod : wrap64 (Fptr + Fsize) = Fptr + Fsize := by
    unfold wrap64
    omega
  refine List.mem_map.mpr ⟨(addr, ""), hmem, ?_⟩
  by_cases h : Fptr ≤ addr ∧ addr < Fptr + Fsize
  · have hrel : sub64 addr Fptr = addr - Fptr := by
      unfold sub64 wrap64
      omega
    simp [createSymbolsEntry, hmod, h, hrel]
  · cases hg : lk addr with
    | none => simp [createSymbolsEntry, hmod, h, hg]
    | some g =>
      by_cases hge : g = ""
      · simp [createSymbolsEntry, hmod, h, hg, hge]
      · simp [createSymbolsEntry, hmod, h, hg, hge]

theorem createSymbols_finalize_names_witness :
    ((0 : Nat), "L0") ∈ createSymbols 0 8 0 (fun _ => none) [(0, "")] := by
  have h := createSymbols_finalize_names 0 8 (fun _ => none) [(0, "")] 0
    (by simp) (by norm_num) (by norm_num)
  simpa using h

/-- Claim C2 counterexample: address `0` lies in the region `[0, 8)` of a
run whose pass 1 recorded nothing (empty table), yet
`SymbolTable::lookupSymbolName` resolves it to nothing (`NULL`) when both
collaborators have no answer — not to the offset label `"L0"` that the
claim's "same two-tier rule as finalize" would require. -/
theorem lookupSymbolName_no_offset_label :
    (lookupSymbolName (fun _ => "") (fun _ => none) 0 [] 0).2 = none ∧
      (lookupSymbolName (fun _ => "") (fun _ => none) 0 [] 0).2 ≠
        some ("L" ++ toString 0) := by
  decide

/-- Claim C2 (amended): for an address not yet in the table,
`lookupSymbolName` resolves it on demand by querying the object-file symbol
table at `addr + slide` and then the runtime symbolicator — it never assigns
an offset label, even for in-region addresses — caches the result, and a
repeated lookup returns the cached value unchanged; so post-finalize every
address yields exactly one of: offset label (recorded in-range addresses),
collaborator symbol name, or empty. -/
theorem lookupSymbolName_on_demand (gs : Nat → String) (lk : Nat → Option String)
    (slide : Int) (t : List (Nat × String)) (addr : Nat)
    (h : lookupEntry t addr = none) :
    lookupSymbolName gs lk slide t addr =
      (t ++ [(addr, onDemandName gs lk slide addr)],
        if onDemandName gs lk slide addr = "" then none
        else some (onDemandName gs lk slide addr)) ∧
      lookupSymbolName gs lk slide (t ++ [(addr, onDemandName gs lk slide addr)]) addr =
        (t ++ [(addr, onDemandName gs lk slide addr)],
          if onDemandName gs lk slide addr = "" then none
          else some (onDemandName gs lk slide addr)) := by
  constructor
  · unfold lookupSymbolName
    rw [h]
    unfold onDemandName
    cases hlk : lk addr with
    | none => by_cases hgs : gs (toU64 ((addr : Int) + slide)) = "" <;> simp [hlk, hgs]
    | some g => by_cases hgs : gs (toU64 ((addr : Int) + slide)) = "" <;> simp [hlk, hgs]
  · have hfound := lookupEntry_append_self t addr (onDemandName gs lk slide addr) h
    unfold lookupSymbolName
    rw [hfound]

theorem lookupSymbolName_on_demand_witness :
    lookupSymbolName (fun _ => "") (fun _ => some "foo") 0 [] 5 =
        ([(5, "foo")], some "foo") ∧
      lookupSymbolName (fun _ => "") (fun _ => some "foo") 0 [(5, "foo")] 5 =
        ([(5, "foo")], some "foo") := by
  have h := lookupSymbolName_on_demand (fun _ => "") (fun _ => some "foo") 0 [] 5 rfl
  simpa [onDemandName] using h

/-- Claim C4 counterexample: with a byte range of length `N = 1` and a
decoder collaborator that reports `Success` while consuming `0` bytes, the
iteration advances the offset by `0` and the loop has not terminated after
`N` iterations (the offset is still inside the range) — so the bound does
not hold for *every* decoder behaviour. -/
theorem disasm_nonterminating_decoder :
    disasmOffsets (fun _ => (DecodeStatus.Success, 0)) 1 1 1 0 < 1 ∧
      advanceSize 1 DecodeStatus.Success 0 = 0 := by
  decide

/-- Claim C4 (amended): provided the decoder reports a nonzero size whenever
it does not report `Fail` (true of every LLVM `MCDisassembler`), and the
architecture minimum step is at least one byte, every iteration advances the
offset by at least one byte — a decode failure only patches the size, it is
never fatal — and hence each pass's loop is finished after at most `N`
iterations on a byte range of length `N`. -/
theorem disasm_forward_progress (decode : Nat → DecodeStatus × Nat) (minStep Fsize : Nat)
    (hstep : 1 ≤ minStep)
    (hdec : ∀ i, (decode i).1 ≠ DecodeStatus.Fail → 1 ≤ (decode i).2) :
    (∀ i, 1 ≤ advanceSize minStep (decode i).1 (decode i).2) ∧
      Fsize ≤ disasmOffsets decode minStep Fsize Fsize 0 := by
  have hadv : ∀ i, 1 ≤ advanceSize minStep (decode i).1 (decode i).2 := by
    intro i
    unfold advanceSize
    cases hS : (decode i).1 with
    | Fail =>
      by_cases hz : (decode i).2 = 0
      · simp [hz, hstep]
      · simp [hz]
        omega
    | SoftFail =>
      have := hdec i (by rw [hS]; exact fun hc => DecodeStatus.noConfusion hc)
      simpa using this
    | Success =>
      have := hdec i (by rw [hS]; exact fun hc => DecodeStatus.noConfusion hc)
      simpa using this
  refine ⟨hadv, ?_⟩
  have h := disasmOffsets_lower_bound decode minStep Fsize hadv Fsize 0
  omega

theorem disasm_forward_progress_witness :
    1 ≤ advanceSize 1 DecodeStatus.Success 1 ∧
      2 ≤ disasmOffsets (fun _ => (DecodeStatus.Success, 1)) 1 2 2 0 := by
  have h := disasm_forward_progress (fun _ => (DecodeStatus.Success, 1)) 1 2
    (by norm_num) (fun i _ => by norm_num)
  exact ⟨h.1 0, h.2⟩

/-- Claim C7: running `SymbolTable::createSymbols` a second time with the
same instruction pointer and the same symbolicator behaviour reproduces the
table exactly — in particular every already-assigned non-empty name is
unchanged: in-range entries are recomputed to the same offset label,
out-of-range entries get the same symbolicator answer or keep their value. -/
theorem createSymbols_idempotent (Fptr Fsize ip : Nat) (lk : Nat → Option String)
    (t : List (Nat × String)) :
    createSymbols Fptr Fsize ip lk (createSymbols Fptr Fsize ip lk t) =
      createSymbols Fptr Fsize ip lk t := by
  unfold createSymbols
  rw [List.map_map]
  apply List.map_congr_left
  intro e _
  exact createSymbolsEntry_idem Fptr Fsize ip lk e

/-- Claim C8: `emit_lineinfo` on an empty frame vector emits no text and
leaves the annotator state unchanged, for every configuration and every
prior state (both the `output_none` early return and the `nframes == 0`
early return keep the state). -/
theorem emit_lineinfo_empty (cfg : PrinterConfig) (st : PrinterState) :
    emit_lineinfo cfg st [] = (st, "") := by
  unfold emit_lineinfo
  split
  · rfl
  · simp

/-- Claim C9: `SetVerbosity` with a string other than `"default"`,
`"source"`, `"none"` leaves the verbosity unchanged, and since a freshly
constructed printer starts at `output_source`, feeding it an unrecognized
value yields the same verbosity as feeding it `"source"` (or `"default"`):
full source annotation. -/
theorem SetVerbosity_unrecognized (v : Verbosity) (c : String)
    (h1 : c ≠ "default") (h2 : c ≠ "source") (h3 : c ≠ "none") :
    SetVerbosity v c = v ∧
      SetVerbosity initVerbosity c = SetVerbosity initVerbosity "source" := by
  constructor
  · unfold SetVerbosity
    rw [if_neg h1, if_neg h2, if_neg h3]
  · unfold SetVerbosity initVerbosity
    rw [if_neg h1, if_neg h2, if_neg h3]
    decide

theorem SetVerbosity_unrecognized_witness :
    SetVerbosity Verbosity.output_none "verbose" = Verbosity.output_none ∧
      SetVerbosity initVerbosity "verbose" = SetVerbosity initVerbosity "source" :=
  SetVerbosity_unrecognized Verbosity.output_none "verbose"
    (by decide) (by decide) (by decide)

/-- Claim C10: in the emission pass a `SoftFail` decode emits the warning
line `"potentially undefined instruction encoding:"` and then falls through
to exactly the `Success` handling (same operand symbolication with the same
final table, same optional raw-bytes comment, same instruction emission);
and in the discovery pass a soft-failed branch/call's target is still
recorded, exactly as on `Success`. -/
theorem softFail_falls_through (gs : Nat → String) (lk : Nat → Option String)
    (slide : Int) (minStep : Nat) (mem : Nat → Nat) (binary : Bool) (rawcmt : String)
    (Fptr Index : Nat) (t : List (Nat × String)) (sz : Nat) (inst : InstDesc)
    (hasMCIA : Bool) :
    pass2SwitchStep gs lk slide minStep mem binary rawcmt Fptr Index t
        DecodeStatus.SoftFail sz inst =
      ((pass2SwitchStep gs lk slide minStep mem binary rawcmt Fptr Index t
          DecodeStatus.Success sz inst).1,
        EmitItem.rawText "potentially undefined instruction encoding:" ::
          (pass2SwitchStep gs lk slide minStep mem binary rawcmt Fptr Index t
            DecodeStatus.Success sz inst).2) ∧
      pass0SwitchStep hasMCIA t DecodeStatus.SoftFail inst =
        pass0SwitchStep hasMCIA t DecodeStatus.Success inst :=
  ⟨rfl, rfl⟩

/-! ## Helper lemmas for the annotator invariant -/

theorem countRuns_pos (l : List String) (h : l ≠ []) : 1 ≤ countRuns l := by
  match l with
  | [] => exact absurd rfl h
  | x :: xs =>
    simp only [countRuns]
    omega

theorem countRuns_le_one_add_runsFrom (x : String) (l : List String) :
    countRuns l ≤ 1 + runsFrom x l := by
  match l with
  | [] => simp [countRuns, runsFrom]
  | y :: l2 =>
    simp only [countRuns, runsFrom]
    by_cases hxy : x = y
    · rw [if_pos hxy]
      omega
    · rw [if_neg hxy]
      omega

theorem countRuns_suffix_le (xs ys : List String) :
    countRuns ys ≤ countRuns (xs ++ ys) := by
  induction xs with
  | nil => simp
  | cons x xs2 ih =>
    calc countRuns ys ≤ countRuns (xs2 ++ ys) := ih
    _ ≤ 1 + runsFrom x (xs2 ++ ys) := countRuns_le_one_add_runsFrom x (xs2 ++ ys)
    _ = countRuns (x :: (xs2 ++ ys)) := rfl
    _ = countRuns ((x :: xs2) ++ ys) := rfl

theorem runsFrom_append (p : String) (xs ys : List String) :
    runsFrom p (xs ++ ys) = runsFrom p xs + runsFrom (xs.getLastD p) ys := by
  induction xs generalizing p with
  | nil => simp [runsFrom, List.getLastD]
  | cons x xs2 ih =>
    simp only [List.cons_append, runsFrom, List.getLastD_cons, List.append_eq]
    rw [ih x]
    omega

theorem getLast?_eq_some_getLastD {α : Type} (x : α) (l : List α) :
    (x :: l).getLast? = some (l.getLastD x) := by
  induction l generalizing x with
  | nil => rfl
  | cons y l2 ih =>
    rw [List.getLast?_cons_cons, List.getLastD_cons]
    exact ih y

theorem countRuns_append_split (xs ys : List String)
    (h : ∀ a b, xs.getLast? = some a → ys.head? = some b → a ≠ b) :
    countRuns (xs ++ ys) = countRuns xs + countRuns ys := by
  match xs, ys with
  | [], ys => simp [countRuns]
  | x :: xs2, [] => simp [countRuns]
  | x :: xs2, y :: ys2 =>
    have hlast : (x :: xs2).getLast? = some (xs2.getLastD x) :=
      getLast?_eq_some_getLastD x xs2
    have hne : xs2.getLastD x ≠ y := h _ _ hlast rfl
    simp only [List.cons_append, countRuns, runsFrom_append]
    have : runsFrom (xs2.getLastD x) (y :: ys2) = 1 + runsFrom y ys2 := by
      simp only [runsFrom]
      rw [if_neg hne]
    rw [this]
    omega

theorem runsFrom_names_dropWhile (m : String) (r : List DILineInfo) :
    runsFrom m (nameList r) =
      countRuns (nameList (r.dropWhile (fun g => diName g = m))) := by
  induction r with
  | nil => rfl
  | cons g r2 ih =>
    by_cases hg : diName g = m
    · rw [List.dropWhile_cons_of_pos (by simpa using hg)]
      simp only [nameList, List.map_cons, runsFrom]
      rw [if_pos hg.symm, hg]
      simpa [nameList] using ih
    · rw [List.dropWhile_cons_of_neg (by simpa using hg)]
      simp only [nameList, List.map_cons, runsFrom, countRuns]
      rw [if_neg (fun hc => hg hc.symm)]

theorem assertDepth_nil (cfg : PrinterConfig) : assertDepth cfg [] = 0 := by
  by_cases hc : cfg.collapse_recursive <;> simp [assertDepth, hc, nameList, countRuns]

theorem assertDepth_cons (cfg : PrinterConfig) (f : DILineInfo) (r : List DILineInfo) :
    assertDepth cfg (f :: r) = 1 +
      assertDepth cfg
        (if cfg.collapse_recursive then r.dropWhile (fun g => diName g = diName f) else r) := by
  by_cases hc : cfg.collapse_recursive
  · rw [if_pos hc]
    simp only [assertDepth, if_pos hc, nameList, List.map_cons, countRuns]
    have := runsFrom_names_dropWhile (diName f) r
    simpa [nameList] using this
  · rw [if_neg hc]
    simp [assertDepth, hc]
    omega

theorem nameList_getD (C : List DILineInfo) (i : Nat) (hi : i < C.length) :
    (nameList C).getD i "" = diName (C.getD i dfltDI) := by
  induction C generalizing i with
  | nil => simp at hi
  | cons x cs ih =>
    match i with
    | 0 => rfl
    | j + 1 =>
      simp only [nameList, List.map_cons, List.getD_cons_succ]
      exact ih j (by simpa using Nat.lt_of_succ_lt_succ hi)

theorem getLast?_take_getD {α : Type} (d : α) :
    ∀ (l : List α) (k : Nat), 0 < k → k ≤ l.length →
      (l.take k).getLast? = some (l.getD (k - 1) d) := by
  intro l
  induction l with
  | nil =>
    intro k h1 h2
    simp at h2
    omega
  | cons x l2 ih =>
    intro k h1 h2
    obtain ⟨k2, rfl⟩ : ∃ k2, k = k2 + 1 := ⟨k - 1, by omega⟩
    rw [List.take_succ_cons]
    cases k2 with
    | zero => simp
    | succ j =>
      have hLc : (x :: l2).length = l2.length + 1 := rfl
      have hlen : j + 1 ≤ l2.length := by omega
      have hrec := ih (j + 1) (Nat.succ_pos _) hlen
      obtain ⟨z, t2, hz⟩ : ∃ z t2, l2.take (j + 1) = z :: t2 := by
        cases hzz : l2.take (j + 1) with
        | nil =>
          exfalso
          have := congrArg List.length hzz
          rw [List.length_take] at this
          simp only [List.length_nil] at this
          omega
        | cons z t2 => exact ⟨z, t2, rfl⟩
      rw [hz, List.getLast?_cons_cons, ← hz, hrec]
      simp

theorem head?_drop_getD {α : Type} (d : α) :
    ∀ (l : List α) (k : Nat), k < l.length →
      (l.drop k).head? = some (l.getD k d) := by
  intro l
  induction l with
  | nil => intro k h; simp at h
  | cons x l2 ih =>
    intro k h
    match k with
    | 0 => rfl
    | j + 1 =>
      simp only [List.drop_succ_cons, List.getD_cons_succ]
      exact ih j (by simpa using Nat.lt_of_succ_lt_succ h)

theorem prefixLen_le_left : ∀ (c f : List DILineInfo), prefixLen c f ≤ c.length := by
  intro c
  induction c with
  | nil => intro f; simp [prefixLen]
  | cons x cs ih =>
    intro f
    cases f with
    | nil => simp [prefixLen]
    | cons y fs =>
      simp only [prefixLen, List.length_cons]
      by_cases hxy : x = y
      · rw [if_pos hxy]
        have := ih fs
        omega
      · rw [if_neg hxy]
        omega

theorem prefixLen_le_right : ∀ (c f : List DILineInfo), prefixLen c f ≤ f.length := by
  intro c
  induction c with
  | nil => intro f; simp [prefixLen]
  | cons x cs ih =>
    intro f
    cases f with
    | nil => simp [prefixLen]
    | cons y fs =>
      simp only [prefixLen, List.length_cons]
      by_cases hxy : x = y
      · rw [if_pos hxy]
        have := ih fs
        omega
      · rw [if_neg hxy]
        omega

theorem prefixLen_take : ∀ (c f : List DILineInfo) (k : Nat), k ≤ prefixLen c f →
    c.take k = f.take k := by
  intro c
  induction c with
  | nil =>
    intro f k h
    simp only [prefixLen] at h
    have : k = 0 := by omega
    simp [this]
  | cons x cs ih =>
    intro f k h
    cases f with
    | nil =>
      simp only [prefixLen] at h
      have : k = 0 := by omega
      simp [this]
    | cons y fs =>
      simp only [prefixLen] at h
      by_cases hxy : x = y
      · rw [if_pos hxy] at h
        match k with
        | 0 => simp
        | j + 1 =>
          simp only [List.take_succ_cons]
          rw [hxy, ih fs j (by omega)]
      · rw [if_neg hxy] at h
        have : k = 0 := by omega
        simp [this]

theorem prefixLen_getD (c f : List DILineInfo) (i : Nat) (hi : i < prefixLen c f) :
    c.getD i dfltDI = f.getD i dfltDI := by
  have h1 : c.take (i + 1) = f.take (i + 1) := prefixLen_take c f (i + 1) hi
  have h2 : i < c.length := Nat.lt_of_lt_of_le hi (prefixLen_le_left c f)
  have h3 : i < f.length := Nat.lt_of_lt_of_le hi (prefixLen_le_right c f)
  have g1 : (c.take (i + 1)).getD i dfltDI = c.getD i dfltDI := by
    rw [List.getD_eq_getElem?_getD, List.getD_eq_getElem?_getD,
      List.getElem?_take_of_lt (Nat.lt_succ_self i)]
  have g2 : (f.take (i + 1)).getD i dfltDI = f.getD i dfltDI := by
    rw [List.getD_eq_getElem?_getD, List.getD_eq_getElem?_getD,
      List.getElem?_take_of_lt (Nat.lt_succ_self i)]
  rw [← g1, ← g2, h1]

theorem shrinkRec_le (C : List DILineInfo) (m : String) : ∀ n, shrinkRec C m n ≤ n := by
  intro n
  induction n with
  | zero => simp [shrinkRec]
  | succ j ih =>
    simp only [shrinkRec]
    split
    · omega
    · omega

theorem shrinkRec_names (C : List DILineInfo) (m : String) :
    ∀ n j, shrinkRec C m n ≤ j → j < n → diName (C.getD j dfltDI) = m := by
  intro n
  induction n with
  | zero => intro j h1 h2; omega
  | succ i ih =>
    intro j h1 h2
    simp only [shrinkRec] at h1
    by_cases ht : diName (C.getD i dfltDI) = m
    · rw [if_pos ht] at h1
      by_cases hj : j = i
      · rw [hj]; exact ht
      · exact ih j h1 (by omega)
    · rw [if_neg ht] at h1
      omega

theorem shrinkRec_stop (C : List DILineInfo) (m : String) :
    ∀ n, 0 < shrinkRec C m n →
      diName (C.getD (shrinkRec C m n - 1) dfltDI) ≠ m := by
  intro n
  induction n with
  | zero => intro h; simp [shrinkRec] at h
  | succ i ih =>
    intro h
    simp only [shrinkRec] at h ⊢
    by_cases ht : diName (C.getD i dfltDI) = m
    · rw [if_pos ht] at h ⊢
      exact ih h
    · rw [if_neg ht] at h ⊢
      simpa using ht

theorem openFrames_context (cfg : PrinterConfig) :
    ∀ (n : Nat) (rest : List DILineInfo), rest.length ≤ n →
      ∀ (nctx : Nat) (context : List DILineInfo) (depth : Nat) (ulo : Bool),
        (openFrames cfg rest nctx context depth ulo).1 = context ++ rest := by
  intro n
  induction n with
  | zero =>
    intro rest h nctx context depth ulo
    have hnil : rest = [] := List.length_eq_zero.mp (Nat.le_zero.mp h)
    subst hnil
    simp [openFrames]
  | succ n ih =>
    intro rest h nctx context depth ulo
    match rest with
    | [] => simp [openFrames]
    | frame :: rest2 =>
      have hlen2 : rest2.length ≤ n := by
        have hLc : (frame :: rest2).length = rest2.length + 1 := rfl
        omega
      rw [openFrames]
      dsimp only
      refine Eq.trans (ih _ ?_ _ _ _ _) ?_
      · split
        · exact Nat.le_trans (List.dropWhile_sublist _).length_le hlen2
        · exact hlen2
      · simp only [List.append_assoc, List.cons_append, List.nil_append]
        split
        · rw [List.takeWhile_append_dropWhile]
        · rfl

/-- `openFrames` with explicit-length fuel removed. -/
theorem openFrames_context_eq (cfg : PrinterConfig) (rest : List DILineInfo)
    (nctx : Nat) (context : List DILineInfo) (depth : Nat) (ulo : Bool) :
    (openFrames cfg rest nctx context depth ulo).1 = context ++ rest :=
  openFrames_context cfg rest.length rest (Nat.le_refl _) nctx context depth ulo

theorem openFrames_depth_false (cfg : PrinterConfig) :
    ∀ (n : Nat) (rest : List DILineInfo), rest.length ≤ n →
      ∀ (nctx : Nat) (context : List DILineInfo) (depth : Nat),
        (openFrames cfg rest nctx context depth false).2.1 = depth + assertDepth cfg rest := by
  intro n
  induction n with
  | zero =>
    intro rest h nctx context depth
    have hnil : rest = [] := List.length_eq_zero.mp (Nat.le_zero.mp h)
    subst hnil
    simp [openFrames, assertDepth_nil]
  | succ n ih =>
    intro rest h nctx context depth
    match rest with
    | [] => simp [openFrames, assertDepth_nil]
    | frame :: rest2 =>
      have hlen2 : rest2.length ≤ n := by
        have hLc : (frame :: rest2).length = rest2.length + 1 := rfl
        omega
      rw [openFrames]
      dsimp only
      rw [assertDepth_cons]
      refine Eq.trans (ih _ ?_ _ _ _) ?_
      · split
        · exact Nat.le_trans (List.dropWhile_sublist _).length_le hlen2
        · exact hlen2
      · rw [if_neg (show ¬false = true from by decide)]
        omega

theorem openFrames_depth_false_eq (cfg : PrinterConfig) (rest : List DILineInfo)
    (nctx : Nat) (context : List DILineInfo) (depth : Nat) :
    (openFrames cfg rest nctx context depth false).2.1 = depth + assertDepth cfg rest :=
  openFrames_depth_false cfg rest.length rest (Nat.le_refl _) nctx context depth

theorem openFrames_depth_true_eq (cfg : PrinterConfig) (frame : DILineInfo)
    (rest2 : List DILineInfo) (nctx : Nat) (context : List DILineInfo) (depth : Nat) :
    (openFrames cfg (frame :: rest2) nctx context depth true).2.1 + 1 =
      depth + assertDepth cfg (frame :: rest2) := by
  rw [openFrames]
  dsimp only
  rw [assertDepth_cons]
  rw [openFrames_depth_false_eq]
  rw [if_pos (rfl : true = true)]
  omega

theorem closeFrames_context (cfg : PrinterConfig) (st : PrinterState) (nctx : Nat)
    (ulo : Bool) :
    (closeFrames cfg st nctx ulo).1.context = st.context.take nctx := by
  unfold closeFrames
  split
  · dsimp only
    split
    · rfl
    · rfl
  · rename_i hk
    rw [List.take_of_length_le (Nat.le_of_not_lt hk)]

theorem closeFrames_depth (cfg : PrinterConfig) (st : PrinterState) (nctx : Nat)
    (ulo : Bool) (hk : nctx < st.context.length) :
    (closeFrames cfg st nctx ulo).1.inline_depth =
      st.inline_depth - closePops cfg st.context nctx ulo := by
  unfold closeFrames
  rw [if_pos hk]
  dsimp only
  split
  · rfl
  · rename_i hnp
    dsimp only
    omega

theorem closeFrames_skip (cfg : PrinterConfig) (st : PrinterState) (nctx : Nat)
    (ulo : Bool) (hk : ¬nctx < st.context.length) :
    closeFrames cfg st nctx ulo = (st, "") := by
  unfold closeFrames
  rw [if_neg hk]

theorem computeNctxUlo_collapse_eq (cfg : PrinterConfig) (C F : List DILineInfo)
    (hcol : cfg.collapse_recursive = true) :
    computeNctxUlo cfg C F =
      (if 0 < prefixLen C F then
        if (prefixLen C F < F.length ∧
              diName (F.getD (prefixLen C F) dfltDI) =
                diName (C.getD (prefixLen C F - 1) dfltDI))
            ∨ (prefixLen C F < C.length ∧
              diName (C.getD (prefixLen C F) dfltDI) =
                diName (C.getD (prefixLen C F - 1) dfltDI)) then
          (shrinkRec C (diName (C.getD (prefixLen C F - 1) dfltDI)) (prefixLen C F), true)
        else
          if prefixLen C F < C.length ∧ prefixLen C F < F.length then
            if diName (C.getD (prefixLen C F) dfltDI) =
                diName (F.getD (prefixLen C F) dfltDI) then
              (prefixLen C F, true)
            else (prefixLen C F, false)
          else (prefixLen C F, false)
      else
        if prefixLen C F < C.length ∧ prefixLen C F < F.length then
          if diName (C.getD (prefixLen C F) dfltDI) =
              diName (F.getD (prefixLen C F) dfltDI) then
            (prefixLen C F, true)
          else (prefixLen C F, false)
        else (prefixLen C F, false)) := by
  simp only [computeNctxUlo, hcol, if_pos (rfl : (true : Bool) = true)]
  by_cases h0 : 0 < prefixLen C F
  · rw [if_pos h0, if_pos h0]
    by_cases hA : (prefixLen C F < F.length ∧
          diName (F.getD (prefixLen C F) dfltDI) =
            diName (C.getD (prefixLen C F - 1) dfltDI))
        ∨ (prefixLen C F < C.length ∧
          diName (C.getD (prefixLen C F) dfltDI) =
            diName (C.getD (prefixLen C F - 1) dfltDI))
    · rw [if_pos hA, if_pos hA]
      simp
    · rw [if_neg hA, if_neg hA]
      by_cases hB : prefixLen C F < C.length ∧ prefixLen C F < F.length
      · by_cases hEq : diName (C.getD (prefixLen C F) dfltDI) =
            diName (F.getD (prefixLen C F) dfltDI)
        · simp [hB, hEq]
        · simp [hB, hEq]
      · simp [hB]
  · rw [if_neg h0, if_neg h0]
    by_cases hB : prefixLen C F < C.length ∧ prefixLen C F < F.length
    · by_cases hEq : diName (C.getD (prefixLen C F) dfltDI) =
          diName (F.getD (prefixLen C F) dfltDI)
      · simp [hB, hEq]
      · simp [hB, hEq]
    · simp [hB]

theorem shrinkRec_lt_of_name (C : List DILineInfo) (p : Nat) (h0 : 0 < p) :
    shrinkRec C (diName (C.getD (p - 1) dfltDI)) p < p := by
  obtain ⟨j, rfl⟩ : ∃ j, p = j + 1 := ⟨p - 1, by omega⟩
  simp only [shrinkRec]
  rw [if_pos]
  · have := shrinkRec_le C (diName (C.getD (j + 1 - 1) dfltDI)) j
    omega
  · norm_num

theorem computeNctxUlo_collapse_spec (cfg : PrinterConfig) (C F : List DILineInfo)
    (hcol : cfg.collapse_recursive = true) :
    (computeNctxUlo cfg C F).1 ≤ prefixLen C F ∧
      ((computeNctxUlo cfg C F).2 = true →
        (computeNctxUlo cfg C F).1 < F.length ∧ (computeNctxUlo cfg C F).1 < C.length) ∧
      (0 < (computeNctxUlo cfg C F).1 → (computeNctxUlo cfg C F).1 < C.length →
        diName (C.getD ((computeNctxUlo cfg C F).1 - 1) dfltDI) ≠
          diName (C.getD ((computeNctxUlo cfg C F).1) dfltDI)) ∧
      (0 < (computeNctxUlo cfg C F).1 → (computeNctxUlo cfg C F).1 < F.length →
        diName (C.getD ((computeNctxUlo cfg C F).1 - 1) dfltDI) ≠
          diName (F.getD ((computeNctxUlo cfg C F).1) dfltDI)) := by
  rw [computeNctxUlo_collapse_eq cfg C F hcol]
  by_cases h0 : 0 < prefixLen C F
  · rw [if_pos h0]
    by_cases hA : (prefixLen C F < F.length ∧
          diName (F.getD (prefixLen C F) dfltDI) =
            diName (C.getD (prefixLen C F - 1) dfltDI))
        ∨ (prefixLen C F < C.length ∧
          diName (C.getD (prefixLen C F) dfltDI) =
            diName (C.getD (prefixLen C F - 1) dfltDI))
    · rw [if_pos hA]
      have hkp : shrinkRec C (diName (C.getD (prefixLen C F - 1) dfltDI)) (prefixLen C F) <
          prefixLen C F := shrinkRec_lt_of_name C (prefixLen C F) h0
      have hkname : diName (C.getD
            (shrinkRec C (diName (C.getD (prefixLen C F - 1) dfltDI)) (prefixLen C F))
            dfltDI) = diName (C.getD (prefixLen C F - 1) dfltDI) :=
        shrinkRec_names C (diName (C.getD (prefixLen C F - 1) dfltDI)) (prefixLen C F)
          (shrinkRec C (diName (C.getD (prefixLen C F - 1) dfltDI)) (prefixLen C F))
          (Nat.le_refl _) hkp
      refine ⟨Nat.le_of_lt hkp, fun _ => ⟨?_, ?_⟩, ?_, ?_⟩
      · exact Nat.lt_of_lt_of_le hkp (prefixLen_le_right C F)
      · exact Nat.lt_of_lt_of_le hkp (prefixLen_le_left C F)
      · intro h0k _
        have hstop := shrinkRec_stop C (diName (C.getD (prefixLen C F - 1) dfltDI))
          (prefixLen C F) h0k
        rw [hkname]
        exact hstop
      · intro h0k _
        have hstop := shrinkRec_stop C (diName (C.getD (prefixLen C F - 1) dfltDI))
          (prefixLen C F) h0k
        have hFk : C.getD
            (shrinkRec C (diName (C.getD (prefixLen C F - 1) dfltDI)) (prefixLen C F))
            dfltDI = F.getD
            (shrinkRec C (diName (C.getD (prefixLen C F - 1) dfltDI)) (prefixLen C F))
            dfltDI := prefixLen_getD C F _ hkp
        rw [← hFk, hkname]
        exact hstop
    · rw [if_neg hA]
      obtain ⟨hA1, hA2⟩ := not_or.mp hA
      by_cases hB : prefixLen C F < C.length ∧ prefixLen C F < F.length
      · rw [if_pos hB]
        by_cases hEq : diName (C.getD (prefixLen C F) dfltDI) =
            diName (F.getD (prefixLen C F) dfltDI)
        · rw [if_pos hEq]
          refine ⟨Nat.le_refl _, fun _ => ⟨hB.2, hB.1⟩, ?_, ?_⟩
          · intro _ _
            intro hceq
            exact hA2 ⟨hB.1, hceq.symm⟩
          · intro _ _
            intro hfeq
            exact hA1 ⟨hB.2, hfeq.symm⟩
        · rw [if_neg hEq]
          refine ⟨Nat.le_refl _, ?_, ?_, ?_⟩
          · intro hfalse
            exact absurd hfalse (by simp)
          · intro _ _
            intro hceq
            exact hA2 ⟨hB.1, hceq.symm⟩
          · intro _ _
            intro hfeq
            exact hA1 ⟨hB.2, hfeq.symm⟩
      · rw [if_neg hB]
        refine ⟨Nat.le_refl _, ?_, ?_, ?_⟩
        · intro hfalse
          exact absurd hfalse (by simp)
        · intro _ hC
          intro hceq
          exact hA2 ⟨hC, hceq.symm⟩
        · intro _ hF
          intro hfeq
          exact hA1 ⟨hF, hfeq.symm⟩
  · rw [if_neg h0]
    have hp0 : prefixLen C F = 0 := by omega
    by_cases hB : prefixLen C F < C.length ∧ prefixLen C F < F.length
    · rw [if_pos hB]
      by_cases hEq : diName (C.getD (prefixLen C F) dfltDI) =
          diName (F.getD (prefixLen C F) dfltDI)
      · rw [if_pos hEq]
        refine ⟨Nat.le_refl _, fun _ => ⟨hB.2, hB.1⟩, ?_, ?_⟩
        · intro h0k _
          rw [hp0] at h0k
          exact absurd h0k (Nat.lt_irrefl 0)
        · intro h0k _
          rw [hp0] at h0k
          exact absurd h0k (Nat.lt_irrefl 0)
      · rw [if_neg hEq]
        refine ⟨Nat.le_refl _, fun hfalse => absurd hfalse (by simp), ?_, ?_⟩
        · intro h0k _
          rw [hp0] at h0k
          exact absurd h0k (Nat.lt_irrefl 0)
        · intro h0k _
          rw [hp0] at h0k
          exact absurd h0k (Nat.lt_irrefl 0)
    · rw [if_neg hB]
      refine ⟨Nat.le_refl _, fun hfalse => absurd hfalse (by simp), ?_, ?_⟩
      · intro h0k _
        rw [hp0] at h0k
        exact absurd h0k (Nat.lt_irrefl 0)
      · intro h0k _
        rw [hp0] at h0k
        exact absurd h0k (Nat.lt_irrefl 0)

theorem computeNctxUlo_plain_spec (cfg : PrinterConfig) (C F : List DILineInfo)
    (hcol : cfg.collapse_recursive = false) :
    (computeNctxUlo cfg C F).1 = prefixLen C F ∧
      ((computeNctxUlo cfg C F).2 = true →
        prefixLen C F < C.length ∧ prefixLen C F < F.length) := by
  simp only [computeNctxUlo, hcol]
  rw [if_neg (by simp)]
  by_cases hB : prefixLen C F < C.length ∧ prefixLen C F < F.length
  · rw [if_pos hB]
    by_cases hEq : (C.getD (prefixLen C F) dfltDI).FileName =
        (F.getD (prefixLen C F) dfltDI).FileName ∧
        diName (C.getD (prefixLen C F) dfltDI) = diName (F.getD (prefixLen C F) dfltDI)
    · rw [if_pos hEq]
      exact ⟨rfl, fun _ => hB⟩
    · rw [if_neg hEq]
      exact ⟨rfl, fun hfalse => absurd hfalse (by simp)⟩
  · rw [if_neg hB]
    exact ⟨rfl, fun hfalse => absurd hfalse (by simp)⟩

theorem names_take_drop_split (L : List DILineInfo) (k : Nat)
    (hbound : 0 < k → k < L.length →
      diName (L.getD (k - 1) dfltDI) ≠ diName (L.getD k dfltDI)) :
    countRuns (nameList L) =
      countRuns ((nameList L).take k) + countRuns ((nameList L).drop k) := by
  have hlen : (nameList L).length = L.length := by simp [nameList]
  by_cases h0 : 0 < k
  · by_cases hk : k < L.length
    · have hb := countRuns_append_split ((nameList L).take k) ((nameList L).drop k) ?_
      · rw [List.take_append_drop] at hb
        exact hb
      · intro a b ha hb2
        have hga := getLast?_take_getD "" (nameList L) k h0 (by omega)
        rw [ha] at hga
        have ha2 : a = (nameList L).getD (k - 1) "" := Option.some.inj hga
        have hgb := head?_drop_getD "" (nameList L) k (by omega)
        rw [hb2] at hgb
        have hb3 : b = (nameList L).getD k "" := Option.some.inj hgb
        rw [ha2, hb3, nameList_getD L (k - 1) (by omega), nameList_getD L k (by omega)]
        exact hbound h0 hk
    · have hdrop : (nameList L).drop k = [] := by
        rw [List.drop_eq_nil_iff]
        omega
      have htak : (nameList L).take k = nameList L := by
        apply List.take_of_length_le
        omega
      rw [hdrop, htak]
      simp [countRuns]
  · have hk0 : k = 0 := by omega
    rw [hk0]
    simp [countRuns]

theorem collapse_depth_key (cfg : PrinterConfig) (st : PrinterState) (F : List DILineInfo)
    (hcol : cfg.collapse_recursive = true) (k : Nat) (u : Bool)
    (ctxArg : List DILineInfo)
    (hkp : k ≤ prefixLen st.context F)
    (hub : u = true → k < F.length ∧ k < st.context.length)
    (hbC : 0 < k → k < st.context.length →
      diName (st.context.getD (k - 1) dfltDI) ≠ diName (st.context.getD k dfltDI))
    (hbF : 0 < k → k < F.length →
      diName (st.context.getD (k - 1) dfltDI) ≠ diName (F.getD k dfltDI))
    (hinv : st.inline_depth = assertDepth cfg st.context) :
    (openFrames cfg (F.drop k) k ctxArg
      (closeFrames cfg st k u).1.inline_depth u).2.1 = assertDepth cfg F := by
  have hkC : k ≤ st.context.length := Nat.le_trans hkp (prefixLen_le_left st.context F)
  have hkF : k ≤ F.length := Nat.le_trans hkp (prefixLen_le_right st.context F)
  have htake : st.context.take k = F.take k := prefixLen_take st.context F k hkp
  have hnt : (nameList st.context).take k = (nameList F).take k := by
    unfold nameList
    rw [← List.map_take, ← List.map_take, htake]
  have hctr : countRuns ((nameList st.context).take k) =
      countRuns ((nameList F).take k) := congrArg countRuns hnt
  have hinv2 : st.inline_depth = countRuns (nameList st.context) := by
    rw [hinv]
    simp [assertDepth, hcol]
  have hbF2 : 0 < k → k < F.length →
      diName (F.getD (k - 1) dfltDI) ≠ diName (F.getD k dfltDI) := by
    intro h0 hkF2
    have hpg : st.context.getD (k - 1) dfltDI = F.getD (k - 1) dfltDI :=
      prefixLen_getD st.context F (k - 1) (by omega)
    rw [← hpg]
    exact hbF h0 hkF2
  have hsplitC := names_take_drop_split st.context k hbC
  have hsplitF := names_take_drop_split F k hbF2
  have hADF : assertDepth cfg F = countRuns (nameList F) := by
    simp [assertDepth, hcol]
  have hADdrop : assertDepth cfg (F.drop k) = countRuns ((nameList F).drop k) := by
    simp [assertDepth, hcol, nameList]
  cases u with
  | false =>
    rw [openFrames_depth_false_eq, hADdrop, hADF]
    by_cases hclose : k < st.context.length
    · rw [closeFrames_depth cfg st k false hclose]
      have hcp : closePops cfg st.context k false =
          countRuns ((nameList st.context).drop k) := by
        simp [closePops, hcol, nameList]
      rw [hcp, hinv2]
      omega
    · rw [closeFrames_skip cfg st k false hclose]
      dsimp only
      rw [hinv2]
      have htak2 : (nameList st.context).take k = nameList st.context := by
        apply List.take_of_length_le
        simp [nameList]
        omega
      rw [htak2] at hctr
      omega
  | true =>
    obtain ⟨hkFlt, hkClt⟩ := hub rfl
    obtain ⟨frame, rest2, hrest⟩ : ∃ fr r2, F.drop k = fr :: r2 := by
      cases hd : F.drop k with
      | nil =>
        rw [List.drop_eq_nil_iff] at hd
        omega
      | cons fr r2 => exact ⟨fr, r2, rfl⟩
    have hcp : closePops cfg st.context k true =
        countRuns ((nameList st.context).drop k) - 1 := by
      simp [closePops, hcol, nameList]
    have hAD2 : assertDepth cfg (frame :: rest2) = countRuns ((nameList F).drop k) := by
      rw [← hrest, hADdrop]
    have hpos : 1 ≤ countRuns ((nameList st.context).drop k) := by
      apply countRuns_pos
      intro hnil
      rw [List.drop_eq_nil_iff] at hnil
      simp [nameList] at hnil
      omega
    rw [hrest, closeFrames_depth cfg st k true hkClt, hcp, hADF]
    have hod := openFrames_depth_true_eq cfg frame rest2 k ctxArg
      (st.inline_depth - (countRuns ((nameList st.context).drop k) - 1))
    rw [hAD2] at hod
    omega

theorem plain_depth_key (cfg : PrinterConfig) (st : PrinterState) (F : List DILineInfo)
    (hcol : cfg.collapse_recursive = false) (k : Nat) (u : Bool)
    (ctxArg : List DILineInfo)
    (hkp : k ≤ prefixLen st.context F)
    (hub : u = true → k < F.length ∧ k < st.context.length)
    (hinv : st.inline_depth = assertDepth cfg st.context) :
    (openFrames cfg (F.drop k) k ctxArg
      (closeFrames cfg st k u).1.inline_depth u).2.1 = assertDepth cfg F := by
  have hkC : k ≤ st.context.length := Nat.le_trans hkp (prefixLen_le_left st.context F)
  have hkF : k ≤ F.length := Nat.le_trans hkp (prefixLen_le_right st.context F)
  have hinv2 : st.inline_depth = st.context.length := by
    rw [hinv]
    simp [assertDepth, hcol]
  have hADF : assertDepth cfg F = F.length := by
    simp [assertDepth, hcol]
  have hADdrop : assertDepth cfg (F.drop k) = F.length - k := by
    simp [assertDepth, hcol]
  cases u with
  | false =>
    rw [openFrames_depth_false_eq, hADdrop, hADF]
    by_cases hclose : k < st.context.length
    · rw [closeFrames_depth cfg st k false hclose]
      have hcp : closePops cfg st.context k false = st.context.length - k := by
        simp [closePops, hcol]
      rw [hcp, hinv2]
      omega
    · rw [closeFrames_skip cfg st k false hclose]
      dsimp only
      rw [hinv2]
      omega
  | true =>
    obtain ⟨hkFlt, hkClt⟩ := hub rfl
    obtain ⟨frame, rest2, hrest⟩ : ∃ fr r2, F.drop k = fr :: r2 := by
      cases hd : F.drop k with
      | nil =>
        rw [List.drop_eq_nil_iff] at hd
        omega
      | cons fr r2 => exact ⟨fr, r2, rfl⟩
    have hcp : closePops cfg st.context k true = st.context.length - k - 1 := by
      simp [closePops, hcol]
    have hAD2 : assertDepth cfg (frame :: rest2) = F.length - k := by
      rw [← hrest, hADdrop]
    rw [hrest, closeFrames_depth cfg st k true hkClt, hcp, hADF]
    have hod := openFrames_depth_true_eq cfg frame rest2 k ctxArg
      (st.inline_depth - (st.context.length - k - 1))
    rw [hAD2] at hod
    omega

theorem emit_lineinfo_preserves (cfg : PrinterConfig) (st : PrinterState)
    (DI : List DILineInfo) (h : st.inline_depth = assertDepth cfg st.context) :
    (emit_lineinfo cfg st DI).1.inline_depth =
      assertDepth cfg (emit_lineinfo cfg st DI).1.context := by
  unfold emit_lineinfo
  by_cases hv : cfg.verbosity = Verbosity.output_none
  · rw [if_pos hv]
    exact h
  rw [if_neg hv]
  by_cases hlen : DI.length = 0
  · rw [if_pos hlen]
    exact h
  rw [if_neg hlen]
  dsimp only
  rw [openFrames_context_eq, closeFrames_context]
  cases hcolv : cfg.collapse_recursive with
  | true =>
    obtain ⟨hkp, hub, hbC, hbF⟩ := computeNctxUlo_collapse_spec cfg st.context DI.reverse hcolv
    rw [prefixLen_take st.context DI.reverse _ hkp, List.take_append_drop]
    exact collapse_depth_key cfg st DI.reverse hcolv _ _ _ hkp hub hbC hbF h
  | false =>
    obtain ⟨hkeq, hub⟩ := computeNctxUlo_plain_spec cfg st.context DI.reverse hcolv
    have hkp : (computeNctxUlo cfg st.context DI.reverse).1 ≤ prefixLen st.context DI.reverse :=
      Nat.le_of_eq hkeq
    have hub2 : (computeNctxUlo cfg st.context DI.reverse).2 = true →
        (computeNctxUlo cfg st.context DI.reverse).1 < DI.reverse.length ∧
          (computeNctxUlo cfg st.context DI.reverse).1 < st.context.length := by
      intro hut
      obtain ⟨h1, h2⟩ := hub hut
      rw [hkeq]
      exact ⟨h2, h1⟩
    rw [prefixLen_take st.context DI.reverse _ hkp, List.take_append_drop]
    exact plain_depth_key cfg st DI.reverse hcolv _ _ _ hkp hub2 h

/-- Claim C3: starting from the reset annotator state, after every sequence
of `emit_lineinfo` calls (each call an `annotate` with an arbitrary — in
particular any non-empty — frame stack), `inline_depth` equals the number of
distinct-method-name runs in `context` (function names compared after
stripping trailing semicolons) when `collapse_recursive` is set, and the
context length otherwise: exactly the `depth2` of the assertion at the end of
`emit_lineinfo`, which therefore always holds. -/
theorem annotate_depth_invariant (cfg : PrinterConfig) (DIs : List (List DILineInfo)) :
    (DIs.foldl (fun st di => (emit_lineinfo cfg st di).1) initPrinterState).inline_depth =
      assertDepth cfg
        (DIs.foldl (fun st di => (emit_lineinfo cfg st di).1) initPrinterState).context := by
  have base : initPrinterState.inline_depth = assertDepth cfg initPrinterState.context := by
    rw [show initPrinterState.context = [] from rfl, assertDepth_nil]
    rfl
  have main : ∀ (l : List (List DILineInfo)) (st : PrinterState),
      st.inline_depth = assertDepth cfg st.context →
      (l.foldl (fun s di => (emit_lineinfo cfg s di).1) st).inline_depth =
        assertDepth cfg (l.foldl (fun s di => (emit_lineinfo cfg s di).1) st).context := by
    intro l
    induction l with
    | nil => intro st hst; exact hst
    | cons di l2 ih =>
      intro st hst
      exact ih _ (emit_lineinfo_preserves cfg st di hst)
  exact main DIs initPrinterState base

/-- Claim C5: three consecutive annotate calls with frame stacks `f`,
`f→f`, `f→f→f` (same function name, increasing line numbers, passed to
`emit_lineinfo` innermost-first as the C++ does) produce exactly one opening
line with one `┌` glyph, and render the deeper recursive frames as same-line
`" @ file:line"` continuations (the later calls emit a single line-update
line each, with no opening glyph) — never three nested blocks: after each of
the three calls `inline_depth` is `1`, so it increases by exactly one
overall. -/
theorem recursion_collapse_three_calls (fn fl : String) (l1 l2 l3 : Nat)
    (h0 : 0 < l1) (h12 : l1 < l2) (h23 : l2 < l3) (hmax : l3 < UINT32_MAX) :
    emit_lineinfo asmPrinterConfig initPrinterState [⟨fn, fl, l1⟩] =
      (⟨[⟨fn, fl, l1⟩], 1⟩,
        "; ┌ @ " ++ fl ++ ":" ++ toString l1 ++ " within `" ++ rtrimSemi fn ++ "`\n") ∧
      emit_lineinfo asmPrinterConfig
          (emit_lineinfo asmPrinterConfig initPrinterState [⟨fn, fl, l1⟩]).1
          [⟨fn, fl, l2⟩, ⟨fn, fl, l1⟩] =
        (⟨[⟨fn, fl, l1⟩, ⟨fn, fl, l2⟩], 1⟩,
          "; │ @ " ++ fl ++ ":" ++ toString l1 ++ " within `" ++ rtrimSemi fn ++ "` @ " ++
            fl ++ ":" ++ toString l2 ++ "\n") ∧
      emit_lineinfo asmPrinterConfig
          (emit_lineinfo asmPrinterConfig
            (emit_lineinfo asmPrinterConfig initPrinterState [⟨fn, fl, l1⟩]).1
            [⟨fn, fl, l2⟩, ⟨fn, fl, l1⟩]).1
          [⟨fn, fl, l3⟩, ⟨fn, fl, l2⟩, ⟨fn, fl, l1⟩] =
        (⟨[⟨fn, fl, l1⟩, ⟨fn, fl, l2⟩, ⟨fn, fl, l3⟩], 1⟩,
          "; │ @ " ++ fl ++ ":" ++ toString l1 ++ " within `" ++ rtrimSemi fn ++ "` @ " ++
            fl ++ ":" ++ toString l2 ++ " @ " ++ fl ++ ":" ++ toString l3 ++ "\n") := by
  have hne1 : l1 ≠ UINT32_MAX := Nat.ne_of_lt (by omega)
  have hne0 : l1 ≠ 0 := Nat.pos_iff_ne_zero.mp h0
  have e1 : emit_lineinfo asmPrinterConfig initPrinterState [⟨fn, fl, l1⟩] =
      (⟨[⟨fn, fl, l1⟩], 1⟩,
        "; ┌ @ " ++ fl ++ ":" ++ toString l1 ++ " within `" ++ rtrimSemi fn ++ "`\n") := by
    simp [emit_lineinfo, computeNctxUlo, closeFrames, closePops, openFrames, prefixLen,
      shrinkRec, asmPrinterConfig, initPrinterState, diName, nameList, countRuns, runsFrom,
      lineSuffix, frameEntryText, collapseText, inliningIndent, inliningIndentCount, srep,
      hne1, hne0]
    apply String.ext
    simp [String.join]
  have e2 : emit_lineinfo asmPrinterConfig ⟨[⟨fn, fl, l1⟩], 1⟩
      [⟨fn, fl, l2⟩, ⟨fn, fl, l1⟩] =
      (⟨[⟨fn, fl, l1⟩, ⟨fn, fl, l2⟩], 1⟩,
        "; │ @ " ++ fl ++ ":" ++ toString l1 ++ " within `" ++ rtrimSemi fn ++ "` @ " ++
          fl ++ ":" ++ toString l2 ++ "\n") := by
    simp [emit_lineinfo, computeNctxUlo, closeFrames, closePops, openFrames, prefixLen,
      shrinkRec, asmPrinterConfig, diName, nameList, countRuns, runsFrom,
      lineSuffix, frameEntryText, collapseText, inliningIndent, inliningIndentCount, srep,
      hne1, hne0]
    apply String.ext
    simp [String.join]
  have e3 : emit_lineinfo asmPrinterConfig ⟨[⟨fn, fl, l1⟩, ⟨fn, fl, l2⟩], 1⟩
      [⟨fn, fl, l3⟩, ⟨fn, fl, l2⟩, ⟨fn, fl, l1⟩] =
      (⟨[⟨fn, fl, l1⟩, ⟨fn, fl, l2⟩, ⟨fn, fl, l3⟩], 1⟩,
        "; │ @ " ++ fl ++ ":" ++ toString l1 ++ " within `" ++ rtrimSemi fn ++ "` @ " ++
          fl ++ ":" ++ toString l2 ++ " @ " ++ fl ++ ":" ++ toString l3 ++ "\n") := by
    simp [emit_lineinfo, computeNctxUlo, closeFrames, closePops, openFrames, prefixLen,
      shrinkRec, asmPrinterConfig, diName, nameList, countRuns, runsFrom,
      lineSuffix, frameEntryText, collapseText, inliningIndent, inliningIndentCount, srep,
      hne1, hne0]
    apply String.ext
    simp [String.join]
  refine ⟨e1, ?_, ?_⟩
  · rw [e1]
    exact e2
  · rw [e1]
    have e2t : (emit_lineinfo asmPrinterConfig
        ((⟨[⟨fn, fl, l1⟩], 1⟩ : PrinterState),
          "; ┌ @ " ++ fl ++ ":" ++ toString l1 ++ " within `" ++ rtrimSemi fn ++ "`\n").1
        [⟨fn, fl, l2⟩, ⟨fn, fl, l1⟩]).1 = ⟨[⟨fn, fl, l1⟩, ⟨fn, fl, l2⟩], 1⟩ :=
      congrArg Prod.fst e2
    rw [e2t]
    exact e3

theorem recursion_collapse_three_calls_witness :
    emit_lineinfo asmPrinterConfig initPrinterState [⟨"f", "file.jl", 1⟩] =
      (⟨[⟨"f", "file.jl", 1⟩], 1⟩,
        "; ┌ @ " ++ "file.jl" ++ ":" ++ toString 1 ++ " within `" ++ rtrimSemi "f" ++ "`\n") ∧
      emit_lineinfo asmPrinterConfig
          (emit_lineinfo asmPrinterConfig initPrinterState [⟨"f", "file.jl", 1⟩]).1
          [⟨"f", "file.jl", 2⟩, ⟨"f", "file.jl", 1⟩] =
        (⟨[⟨"f", "file.jl", 1⟩, ⟨"f", "file.jl", 2⟩], 1⟩,
          "; │ @ " ++ "file.jl" ++ ":" ++ toString 1 ++ " within `" ++ rtrimSemi "f" ++
            "` @ " ++ "file.jl" ++ ":" ++ toString 2 ++ "\n") ∧
      emit_lineinfo asmPrinterConfig
          (emit_lineinfo asmPrinterConfig
            (emit_lineinfo asmPrinterConfig initPrinterState [⟨"f", "file.jl", 1⟩]).1
            [⟨"f", "file.jl", 2⟩, ⟨"f", "file.jl", 1⟩]).1
          [⟨"f", "file.jl", 3⟩, ⟨"f", "file.jl", 2⟩, ⟨"f", "file.jl", 1⟩] =
        (⟨[⟨"f", "file.jl", 1⟩, ⟨"f", "file.jl", 2⟩, ⟨"f", "file.jl", 3⟩], 1⟩,
          "; │ @ " ++ "file.jl" ++ ":" ++ toString 1 ++ " within `" ++ rtrimSemi "f" ++
            "` @ " ++ "file.jl" ++ ":" ++ toString 2 ++ " @ " ++ "file.jl" ++ ":" ++
            toString 3 ++ "\n") :=
  recursion_collapse_three_calls "f" "file.jl" 1 2 3
    (by decide) (by decide) (by decide) (by decide)

/-- Claim C6: the annotate-call sequence with (outer-to-inner) frame stacks
`[A,B]`, `[A]`, `[A,C]` — distinct method names once the trailing
disambiguation semicolons are stripped — emits: an open of `A` then an open
of `B`; then one closing line with pop count 1 (a single `└`); then an open
of `C`.  The context after the calls is `[A,B]`, `[A]`, `[A,C]`
respectively, so the context never contains `B` and `C` simultaneously. -/
theorem push_pop_correctness (nA nB nC fa fb fc : String) (la lb lc : Nat)
    (hBA : rtrimSemi nB ≠ rtrimSemi nA) (hCA : rtrimSemi nC ≠ rtrimSemi nA)
    (hCB : rtrimSemi nC ≠ rtrimSemi nB)
    (ha0 : la ≠ 0) (haM : la ≠ UINT32_MAX) (hb0 : lb ≠ 0) (hbM : lb ≠ UINT32_MAX)
    (hc0 : lc ≠ 0) (hcM : lc ≠ UINT32_MAX) :
    emit_lineinfo asmPrinterConfig initPrinterState [⟨nB, fb, lb⟩, ⟨nA, fa, la⟩] =
      (⟨[⟨nA, fa, la⟩, ⟨nB, fb, lb⟩], 2⟩,
        "; ┌ @ " ++ fa ++ ":" ++ toString la ++ " within `" ++ rtrimSemi nA ++ "`\n" ++
        "; │┌ @ " ++ fb ++ ":" ++ toString lb ++ " within `" ++ rtrimSemi nB ++ "`\n") ∧
      emit_lineinfo asmPrinterConfig
          (emit_lineinfo asmPrinterConfig initPrinterState
            [⟨nB, fb, lb⟩, ⟨nA, fa, la⟩]).1 [⟨nA, fa, la⟩] =
        (⟨[⟨nA, fa, la⟩], 1⟩, "; │└\n") ∧
      emit_lineinfo asmPrinterConfig
          (emit_lineinfo asmPrinterConfig
            (emit_lineinfo asmPrinterConfig initPrinterState
              [⟨nB, fb, lb⟩, ⟨nA, fa, la⟩]).1 [⟨nA, fa, la⟩]).1
          [⟨nC, fc, lc⟩, ⟨nA, fa, la⟩] =
        (⟨[⟨nA, fa, la⟩, ⟨nC, fc, lc⟩], 2⟩,
          "; │┌ @ " ++ fc ++ ":" ++ toString lc ++ " within `" ++ rtrimSemi nC ++ "`\n") := by
  have hAB : rtrimSemi nA ≠ rtrimSemi nB := Ne.symm hBA
  have hAC : rtrimSemi nA ≠ rtrimSemi nC := Ne.symm hCA
  have e1 : emit_lineinfo asmPrinterConfig initPrinterState
      [⟨nB, fb, lb⟩, ⟨nA, fa, la⟩] =
      (⟨[⟨nA, fa, la⟩, ⟨nB, fb, lb⟩], 2⟩,
        "; ┌ @ " ++ fa ++ ":" ++ toString la ++ " within `" ++ rtrimSemi nA ++ "`\n" ++
        "; │┌ @ " ++ fb ++ ":" ++ toString lb ++ " within `" ++ rtrimSemi nB ++ "`\n") := by
    simp [emit_lineinfo, computeNctxUlo, closeFrames, closePops, openFrames, prefixLen,
      shrinkRec, asmPrinterConfig, initPrinterState, diName, nameList, countRuns, runsFrom,
      lineSuffix, frameEntryText, collapseText, inliningIndent, inliningIndentCount, srep,
      hBA, ha0, haM, hb0, hbM]
    apply String.ext
    simp [String.join]
  have e2 : emit_lineinfo asmPrinterConfig
      ⟨[⟨nA, fa, la⟩, ⟨nB, fb, lb⟩], 2⟩ [⟨nA, fa, la⟩] =
      (⟨[⟨nA, fa, la⟩], 1⟩, "; │└\n") := by
    simp [emit_lineinfo, computeNctxUlo, closeFrames, closePops, openFrames, prefixLen,
      shrinkRec, asmPrinterConfig, diName, nameList, countRuns, runsFrom,
      lineSuffix, frameEntryText, collapseText, inliningIndent, inliningIndentCount, srep,
      hBA]
    apply String.ext
    simp [String.join]
  have e3 : emit_lineinfo asmPrinterConfig ⟨[⟨nA, fa, la⟩], 1⟩
      [⟨nC, fc, lc⟩, ⟨nA, fa, la⟩] =
      (⟨[⟨nA, fa, la⟩, ⟨nC, fc, lc⟩], 2⟩,
        "; │┌ @ " ++ fc ++ ":" ++ toString lc ++ " within `" ++ rtrimSemi nC ++ "`\n") := by
    simp [emit_lineinfo, computeNctxUlo, closeFrames, closePops, openFrames, prefixLen,
      shrinkRec, asmPrinterConfig, diName, nameList, countRuns, runsFrom,
      lineSuffix, frameEntryText, collapseText, inliningIndent, inliningIndentCount, srep,
      hCA, hc0, hcM]
    apply String.ext
    simp [String.join]
  refine ⟨e1, ?_, ?_⟩
  · rw [e1]
    exact e2
  · rw [e1]
    have e2t : (emit_lineinfo asmPrinterConfig
        ((⟨[⟨nA, fa, la⟩, ⟨nB, fb, lb⟩], 2⟩ : PrinterState),
          "; ┌ @ " ++ fa ++ ":" ++ toString la ++ " within `" ++ rtrimSemi nA ++ "`\n" ++
          "; │┌ @ " ++ fb ++ ":" ++ toString lb ++ " within `" ++ rtrimSemi nB ++ "`\n").1
        [⟨nA, fa, la⟩]).1 = ⟨[⟨nA, fa, la⟩], 1⟩ :=
      congrArg Prod.fst e2
    rw [e2t]
    exact e3

theorem push_pop_correctness_witness :
    emit_lineinfo asmPrinterConfig initPrinterState [⟨"B", "fb", 20⟩, ⟨"A", "fa", 10⟩] =
      (⟨[⟨"A", "fa", 10⟩, ⟨"B", "fb", 20⟩], 2⟩,
        "; ┌ @ " ++ "fa" ++ ":" ++ toString 10 ++ " within `" ++ rtrimSemi "A" ++ "`\n" ++
        "; │┌ @ " ++ "fb" ++ ":" ++ toString 20 ++ " within `" ++ rtrimSemi "B" ++ "`\n") ∧
      emit_lineinfo asmPrinterConfig
          (emit_lineinfo asmPrinterConfig initPrinterState
            [⟨"B", "fb", 20⟩, ⟨"A", "fa", 10⟩]).1 [⟨"A", "fa", 10⟩] =
        (⟨[⟨"A", "fa", 10⟩], 1⟩, "; │└\n") ∧
      emit_lineinfo asmPrinterConfig
          (emit_lineinfo asmPrinterConfig
            (emit_lineinfo asmPrinterConfig initPrinterState
              [⟨"B", "fb", 20⟩, ⟨"A", "fa", 10⟩]).1 [⟨"A", "fa", 10⟩]).1
          [⟨"C", "fc", 30⟩, ⟨"A", "fa", 10⟩] =
        (⟨[⟨"A", "fa", 10⟩, ⟨"C", "fc", 30⟩], 2⟩,
          "; │┌ @ " ++ "fc" ++ ":" ++ toString 30 ++ " within `" ++ rtrimSemi "C" ++ "`\n") :=
  push_pop_correctness "A" "B" "C" "fa" "fb" "fc" 10 20 30
    (by decide) (by decide) (by decide) (by decide) (by decide) (by decide) (by decide)
    (by decide) (by decide)
